import Mathlib

/-!
Shallow embedding of `src/orgviz.py`: the entity model (`Person`,
`Edge`, `Model`), the outline parser (`parseModel` and friends), the
filter predicate (`isPersonExcluded`) and the DOT renderer
(`getModelAsDot` and its helpers).

Modelling conventions:
  * Python strings are lists of characters (`Str`); `str.strip`,
    `str.upper`, `str.lower`, `str.replace`, `str.split(sep, 1)`,
    `str.startswith` and the `in` operator are modelled by the
    `py`-prefixed helpers below (ASCII case mapping, ASCII whitespace).
  * Python dictionaries are insertion-ordered association lists with
    unique keys (`dictInsert` overwrites in place, as CPython does);
    the Python `set` of team names is an insertion-ordered
    duplicate-free list.
  * Code paths that raise exceptions (`Model.getPersonByName` on a
    missing person, attribute access on the not-yet-assigned
    `lastPerson`, tuple unpacking of a one-element split) are modelled
    with `Option`: `none` is an uncaught exception.
  * `logging.warning` calls inside the dmu/sentiment setters are
    modelled as an explicit list of emitted messages; other logging
    calls are no-ops as far as the claims are concerned.
-/

abbrev Str := List Char

/-- The whitespace characters `str.strip` removes (ASCII fragment). -/
def pyWhitespace (c : Char) : Bool :=
  c == ' ' || c == '\t' || c == '\n' || c == '\r' || c == '\x0b' || c == '\x0c'

/-- Python `str.strip()`. -/
def pyStripL (l : Str) : Str :=
  ((l.dropWhile pyWhitespace).reverse.dropWhile pyWhitespace).reverse

/-- Python `str.startswith(c)` for a one-character argument. -/
def startsWithChar (c : Char) : Str → Bool
  | [] => false
  | x :: _ => x == c

/-- Python `str.replace(old, new)` for one-character `old` and `new`. -/
def replaceChar (old new : Char) (l : Str) : Str :=
  l.map fun c => if c = old then new else c

/-- Python `str.replace(old, "")` for a one-character `old`. -/
def removeChar (old : Char) (l : Str) : Str :=
  l.filter fun c => c != old

/-- Python `str.replace(old, new)` for one-character `old`, any `new`. -/
def replaceCharStr (old : Char) (new : Str) (l : Str) : Str :=
  (l.map fun c => if c = old then new else [c]).flatten

/-- Python `str.upper()` (ASCII fragment). -/
def pyUpper (l : Str) : Str := l.map Char.toUpper

/-- Python `str.lower()` (ASCII fragment). -/
def pyLower (l : Str) : Str := l.map Char.toLower

/-- Python `s.split(sep, 1)` when `sep` occurs in `s`: the parts
before and after the first occurrence.  `none` models the one-element
result (whose two-variable unpacking raises) when `sep` is absent. -/
def splitOnFirst (sep : Str) : Str → Option (Str × Str)
  | [] => none
  | x :: xs =>
    if sep.isPrefixOf (x :: xs) then some ([], (x :: xs).drop sep.length)
    else
      match splitOnFirst sep xs with
      | some p => some (x :: p.1, p.2)
      | none => none

/-- Python `s.split(c)` (split on every occurrence). -/
def splitAllChar (c : Char) : Str → List Str
  | [] => [[]]
  | x :: xs =>
    match splitAllChar c xs with
    | [] => [[]]
    | h :: t => if x = c then [] :: h :: t else (x :: h) :: t

/-- CPython dict assignment `d[k] = v`: overwrite in place, keeping the
first-insertion position, else append. -/
def dictInsert {β : Type} : List (Str × β) → Str → β → List (Str × β)
  | [], k, v => [(k, v)]
  | kv :: rest, k, v =>
    if kv.1 = k then (k, v) :: rest else kv :: dictInsert rest k v

/-- Dict lookup `d[k]` / `k in d`. -/
def dictLookup {β : Type} : List (Str × β) → Str → Option β
  | [], _ => none
  | kv :: rest, k => if kv.1 = k then some kv.2 else dictLookup rest k

/-- `convertHumanNameToDotNodeName` (src/orgviz.py:244-249). -/
def convertHumanNameToDotNodeName (name : Str) : Str :=
  let name := replaceChar ' ' '_' (pyStripL name)
  let name := removeChar '-' (pyStripL name)
  let name := replaceChar '‘' '_' (pyStripL name)
  name

/-- `Person` (src/orgviz.py:33-130).  The warning-only regex check on
the full name in `__init__` is a pure logging side effect and is not
modelled. -/
structure Person where
  fullName : Str
  dotNodeName : Str
  team : Str
  influence : Str
  dmu : Str
  sentiment : Str
  attributes : List (Str × Str)
deriving DecidableEq, Repr

/-- `Person.__init__` (src/orgviz.py:34-46). -/
def Person.init (fullName : Str) : Person :=
  let fullName := pyStripL fullName
  { fullName := fullName
    dotNodeName := convertHumanNameToDotNodeName fullName
    team := "??".toList
    influence := []
    dmu := "U".toList
    sentiment := "N".toList
    attributes := [] }

/-- `Person.getDmuDescription` (src/orgviz.py:48-55). -/
def Person.getDmuDescription (p : Person) : Str :=
  if p.dmu = "D".toList then "Decision Maker".toList
  else if p.dmu = "B".toList then "Buyer".toList
  else if p.dmu = "I".toList then "Influencer".toList
  else if p.dmu = "G".toList then "Gatekeeper".toList
  else if p.dmu = "U".toList then "User".toList
  else "dmu?".toList

/-- `Person.getSentimentDescription` (src/orgviz.py:57-62). -/
def Person.getSentimentDescription (p : Person) : Str :=
  if p.sentiment = "P".toList then "Proponent".toList
  else if p.sentiment = "N".toList then "Neutral".toList
  else if p.sentiment = "O".toList then "Opponent".toList
  else "sentiment?".toList

/-- `Person.setDmu` (src/orgviz.py:64-88); the second component is the
list of warning messages logged by the call. -/
def Person.setDmu (p : Person) (newValue : Str) : Person × List Str :=
  let dmu := pyStripL (pyUpper newValue)
  if dmu ∈ ["D".toList, "DECISION MAKER".toList, "DM".toList] then
    ({ p with dmu := "D".toList }, [])
  else if dmu ∈ ["B".toList, "BUYER".toList, "BUY".toList] then
    ({ p with dmu := "B".toList }, [])
  else if dmu ∈ ["I".toList, "INFLUENCER".toList] then
    ({ p with dmu := "I".toList }, [])
  else if dmu ∈ ["G".toList, "GATEKEEPER".toList] then
    ({ p with dmu := "G".toList }, [])
  else if dmu ∈ ["U".toList, "USER".toList] then
    ({ p with dmu := "U".toList }, [])
  else
    ({ p with dmu := "U".toList },
     ["Unknown `dmu` (decision making unit) for: ".toList ++ p.fullName ++
      ", got: ".toList ++ dmu ++
      ", but should be [D]ecision Maker, [B]uyer, [I]nfluencer, [G]atekeeper, [U]ser".toList])

/-- `Person.setSentiment` (src/orgviz.py:90-106); the second component
is the list of warning messages logged by the call. -/
def Person.setSentiment (p : Person) (newValue : Str) : Person × List Str :=
  let sentiment := pyStripL (pyUpper newValue)
  if sentiment ∈ ["P".toList, "PROMOTOR".toList, "PROMOTER".toList, "PROPONENT".toList] then
    ({ p with sentiment := "P".toList }, [])
  else if sentiment ∈ ["O".toList, "OPPONENT".toList] then
    ({ p with sentiment := "O".toList }, [])
  else if sentiment ∈ ["N".toList, "NEUTRAL".toList] then
    ({ p with sentiment := "N".toList }, [])
  else
    ({ p with sentiment := "N".toList },
     ["Unknown `sentiment` for: ".toList ++ p.fullName ++ ", got: ".toList ++ sentiment ++
      ", but should be [P]romoter, [O]pponent or [N]eutral".toList])

/-- `Person.setInfluence` (src/orgviz.py:108-109). -/
def Person.setInfluence (p : Person) (influence : Str) : Person :=
  { p with influence := pyStripL influence }

/-- `Person.setTeam` (src/orgviz.py:111-112). -/
def Person.setTeam (p : Person) (team : Str) : Person :=
  { p with team := team }

/-- `Person.hasAttribute` (src/orgviz.py:114-115). -/
def Person.hasAttribute (p : Person) (key : Str) : Bool :=
  (dictLookup p.attributes key).isSome

/-- `Person.getAttribute` (src/orgviz.py:117-127). -/
def Person.getAttribute (p : Person) (key : Str) : Str :=
  match dictLookup p.attributes key with
  | some rawValue =>
    let safeValue := replaceCharStr '&' "&amp;".toList rawValue
    let safeValue := replaceChar '|' ' ' safeValue
    let safeValue := pyStripL safeValue
    if safeValue ≠ [] then safeValue else "Unknown: ".toList ++ key
  | none => "Unknown: ".toList ++ key

/-- `Person.setAttribute` (src/orgviz.py:129-130). -/
def Person.setAttribute (p : Person) (k v : Str) : Person :=
  { p with attributes := dictInsert p.attributes k v }

/-- An entry of `Model.edges` (src/orgviz.py:160-165). -/
structure Edge where
  origin : Str
  type : Str
  destination : Str
deriving DecidableEq, Repr

/-- `Model` (src/orgviz.py:132-165).  `lastPerson` stores the
`dotNodeName` of the most recently added person: in the source it is
the `Person` object itself, which is always the same object as
`people[its dotNodeName]`, so mutations through `lastPerson` are
modelled as updates of that dictionary slot.  `none` models the state
before the first `addPerson`, where attribute access raises. -/
structure Model where
  title : Str
  people : List (Str × Person)
  edges : List Edge
  teams : List Str
  lastPerson : Option Str
deriving DecidableEq, Repr

/-- `Model.__init__` (src/orgviz.py:133-137). -/
def Model.init : Model :=
  { title := "Untitled Organization".toList
    people := []
    edges := []
    teams := []
    lastPerson := none }

/-- `Model.getPersonByName` (src/orgviz.py:145-149); `none` is the
raised `Exception("Person not found: ...")`. -/
def Model.getPersonByName (m : Model) (personFullName : Str) : Option Person :=
  dictLookup m.people personFullName

/-- `Model.findPerson` (src/orgviz.py:139-143). -/
def Model.findPerson (m : Model) (name : Str) : Option Person :=
  match (m.people.map Prod.snd).find? (fun person => person.getAttribute "id".toList == name) with
  | some person => some person
  | none => m.getPersonByName name

/-- `Model.addPerson` (src/orgviz.py:151-155). -/
def Model.addPerson (m : Model) (personFullName : Str) : Model :=
  let person := Person.init personFullName
  { m with people := dictInsert m.people person.dotNodeName person
           lastPerson := some person.dotNodeName }

/-- `Model.addTeam` (src/orgviz.py:157-158); `set.add` keeps one copy. -/
def Model.addTeam (m : Model) (team : Str) : Model :=
  if team ∈ m.teams then m else { m with teams := m.teams ++ [team] }

/-- `Model.addConnection` (src/orgviz.py:160-165); reads
`lastPerson.dotNodeName`, raising (`none`) when no person exists. -/
def Model.addConnection (m : Model) (edgeType destination : Str) : Option Model :=
  match m.lastPerson with
  | none => none
  | some lp =>
    some { m with edges := m.edges ++
      [{ origin := lp, type := edgeType,
         destination := convertHumanNameToDotNodeName destination }] }

/-- Mutation of the person object held by `model.lastPerson`
(equivalently of its slot in `model.people`); `none` models the
`AttributeError` when `lastPerson` was never assigned. -/
def Model.updateLastPerson (m : Model) (f : Person → Person) : Option Model :=
  match m.lastPerson with
  | none => none
  | some lp =>
    some { m with people := m.people.map fun kv => if kv.1 = lp then (kv.1, f kv.2) else kv }

/-- `parseConnection` (src/orgviz.py:214-218). -/
def parseConnection (m : Model) (line : Str) : Option Model :=
  match splitOnFirst "->".toList line with
  | none => none
  | some p =>
    let edgeType := p.1
    let destination := p.2
    if edgeType ≠ [] ∧ destination ≠ [] then
      m.addConnection (pyStripL edgeType) (pyStripL destination)
    else some m

/-- `parsePersonProperty` (src/orgviz.py:220-242). -/
def parsePersonProperty (m : Model) (line : Str) : Option Model :=
  match splitOnFirst [':'] line with
  | none => none
  | some kv =>
    let propertyKey := pyLower (pyStripL kv.1)
    let propertyValue := pyStripL kv.2
    if propertyKey = "influence".toList then
      m.updateLastPerson fun p => p.setInfluence propertyValue
    else if propertyKey = "sentiment".toList then
      m.updateLastPerson fun p => (p.setSentiment propertyValue).1
    else if propertyKey = "dmu".toList then
      m.updateLastPerson fun p => (p.setDmu propertyValue).1
    else if propertyKey = "team".toList then
      (m.addTeam propertyValue).updateLastPerson fun p => p.setTeam propertyValue
    else
      m.updateLastPerson fun p => p.setAttribute propertyKey propertyValue

/-- One iteration of the `parseModel` loop body (src/orgviz.py:185-210).
Note that in the source the `logging.warning("Cannot parse line: ...")`
branch does not `continue`: control falls through to
`model.addPerson(line)` with the tab-stripped line. -/
def parseLineL (m : Model) (line : Str) : Option Model :=
  if line = [] then some m
  else if startsWithChar '@' line ∧ ':' ∈ line then
    let line := removeChar '@' line
    match splitOnFirst [':'] line with
    | some kv => if kv.1 = "title".toList then some { m with title := pyStripL kv.2 } else some m
    | none => some m
  else if startsWithChar '\t' line then
    let line := removeChar '\t' (pyStripL line)
    if "->".toList <:+: line then parseConnection m line
    else if ':' ∈ line then parsePersonProperty m line
    else some (m.addPerson line)
  else some (m.addPerson line)

/-- The `for line in contents.split("\n")` loop of `parseModel`. -/
def parseLines (m : Model) : List Str → Option Model
  | [] => some m
  | line :: rest =>
    match parseLineL m line with
    | none => none
    | some m2 => parseLines m2 rest

/-- `parseModel` (src/orgviz.py:182-212). -/
def parseModel (contents : Str) : Option Model :=
  parseLines Model.init (splitAllChar '\n' contents)

/-- The global `args` options consulted by the filter and renderer
(src/orgviz.py:12-31).  `profilePictureExists` — Modelled from the
spec: the `os.path.exists` check for per-person image files is an
external collaborator whose answers are an oracle parameter. -/
structure Args where
  skipDrawingLegend : Bool
  skipDrawingTeams : Bool
  skipDrawingTitle : Bool
  teams : List Str
  influence : List Str
  attributeMatches : List Str
  profilePictures : Bool
  profilePictureDirectory : Str
  profilePictureExists : Str → Bool
  outputType : Str
  vizType : Str
  dpi : Nat

/-- `getInfluenceStyleAsDot` (src/orgviz.py:251-262). -/
def getInfluenceStyleAsDot (args : Args) (influence : Str) : Str :=
  if args.vizType ≠ "inf".toList then "fillcolor=white, style=filled".toList
  else if influence = "supporter".toList then "fillcolor=skyblue, style=filled".toList
  else if influence = "promoter".toList then "fillcolor=GreenYellow, style=filled".toList
  else if influence = "enemy".toList then "fillcolor=salmon, style=filled".toList
  else if influence = "internal".toList then "fillcolor=black, style=filled, fontcolor=white".toList
  else if pyStripL influence = [] then "fillcolor=white, style=filled".toList
  else []

/-- `getLegendAsDot` (src/orgviz.py:264-283). -/
def getLegendAsDot (args : Args) : Str :=
  if !args.skipDrawingLegend then
    if args.vizType = "inf".toList then
      "subgraph cluster_00 \x7b\n".toList ++
      "label=Legend\n".toList ++
      "fillcolor=beige\n".toList ++
      "style=filled\n".toList ++
      "node [fontsize=9]\n".toList ++
      "supporter [fillcolor=skyblue, style=filled]\n".toList ++
      "promoter [fillcolor=GreenYellow, style=filled]\n".toList ++
      "hostile [fillcolor=salmon, style=filled]\n".toList ++
      "internal [fillcolor=black, fontcolor = white, style=filled]\n".toList ++
      "\x7d\n".toList
    else []
  else []

/-- The per-criterion test of the `for attributeSearch in
args.attributeMatches` loop in `isPersonExcluded`
(src/orgviz.py:286-293): `true` means this criterion excludes the
person, entries without `=` are skipped. -/
def attributeSearchExcludes (person : Person) (attributeSearch : Str) : Bool :=
  match splitOnFirst ['='] attributeSearch with
  | none => false
  | some kv =>
    !(decide (pyStripL kv.2 <:+: person.getAttribute (pyStripL kv.1)))

/-- `isPersonExcluded` (src/orgviz.py:285-301). -/
def isPersonExcluded (args : Args) (person : Person) : Bool :=
  if 0 < args.attributeMatches.length ∧ args.attributeMatches.any (attributeSearchExcludes person) then
    true
  else if 0 < args.teams.length ∧ person.team ∉ args.teams then
    true
  else if 0 < args.influence.length ∧ person.influence ∉ args.influence then
    true
  else false

/-- One `subgraph cluster_N` block of `getTeamsAsDot`
(src/orgviz.py:315-328). -/
def getTeamsAsDotBlock (args : Args) (model : Model) (subGraphCount : Nat) (teamName : Str) : Str :=
  "subgraph cluster_".toList ++ (Nat.repr subGraphCount).toList ++ "\x7b\n".toList ++
  "label=\"".toList ++ teamName ++ "\"\n".toList ++
  "style=filled\n".toList ++
  "fillcolor=skyblue\n".toList ++
  ((model.people.map Prod.snd).filterMap fun person =>
    if isPersonExcluded args person then none
    else if person.team = teamName then some (person.dotNodeName ++ " []\n".toList)
    else none).flatten ++
  "\x7d\n".toList

/-- The list of team blocks emitted by the `for teamName in
model.teams` loop of `getTeamsAsDot`; `subGraphCount` starts at 0 and
is incremented before each block. -/
def getTeamsAsDotList (args : Args) (model : Model) : List Str :=
  model.teams.enum.map fun it => getTeamsAsDotBlock args model (it.1 + 1) it.2

/-- `getTeamsAsDot` (src/orgviz.py:303-330). -/
def getTeamsAsDot (args : Args) (model : Model) : Str :=
  if args.skipDrawingTeams then [] else (getTeamsAsDotList args model).flatten

/-- `getEdgeDotStyle` (src/orgviz.py:332-336). -/
def getEdgeDotStyle (edge : Edge) : Str :=
  if edge.type = "supports".toList then "style=dotted".toList else []

/-- `getStyleForDmu` (src/orgviz.py:338-345). -/
def getStyleForDmu (dmu : Str) (fullName : Str) : Str :=
  if dmu = "D".toList then "green".toList
  else if dmu = "I".toList then "skyblue".toList
  else if dmu = "B".toList then "purple".toList
  else if dmu = "G".toList then "pink".toList
  else if dmu = "U".toList then "gray".toList
  else "white".toList

/-- `getStyleForSentiment` (src/orgviz.py:347-352). -/
def getStyleForSentiment (sentiment : Str) (fullName : Str) : Str :=
  if sentiment = "P".toList then "green".toList
  else if sentiment = "N".toList then "yellow".toList
  else if sentiment = "O".toList then "pink".toList
  else "white".toList

/-- `getDsVisType` (src/orgviz.py:354-361); the `%` formatting is
expanded into concatenation. -/
def getDsVisType (person : Person) : Str :=
  "<tr><td bgcolor = \"".toList ++ getStyleForDmu person.dmu person.fullName ++
  "\" border = \"1\">".toList ++ person.getDmuDescription ++
  "</td><td bgcolor = \"".toList ++ getStyleForSentiment person.sentiment person.fullName ++
  "\" border = \"1\">".toList ++ person.getSentimentDescription ++
  "</td></tr>".toList

/-- `getPersonLabelAsDot` (src/orgviz.py:363-387). -/
def getPersonLabelAsDot (args : Args) (person : Person) : Str :=
  let ret := "<<table border = \"0\" cellspacing = \"0\">".toList
  let ret := ret ++ "<tr><td border = \"1\" colspan = \"2\"><b>".toList ++ person.fullName ++
             "</b></td></tr>".toList
  let ret := ret ++ "<tr><td border = \"1\" colspan = \"2\"><font point-size = \"9\">".toList ++
             person.getAttribute "title".toList ++ "</font></td></tr>".toList
  let ret := ret ++
    (if args.profilePictures then
      let pic := args.profilePictureDirectory ++ person.fullName ++ ".jpeg".toList
      if args.profilePictureExists pic then
        "<tr><td colspan = \"2\" border = \"1\"><img src = \"".toList ++ pic ++
        "\" /></td></tr>".toList
      else []
    else [])
  let ret := ret ++
    (if person.hasAttribute "country".toList then
      "<tr><td colspan = \"2\">".toList ++ person.getAttribute "country".toList ++
      "</td></tr>".toList
    else [])
  let ret := ret ++ (if args.vizType = "DS".toList then getDsVisType person else [])
  ret ++ "</table>>".toList

/-- One iteration of the edge loop of `getModelAsDot`
(src/orgviz.py:412-415): `none` is a raised lookup exception, `some s`
the text appended for this edge (empty when the edge is skipped).  The
`or` on line 413 short-circuits: when the origin person is excluded the
destination is never resolved. -/
def renderEdge (args : Args) (model : Model) (edge : Edge) : Option Str :=
  match model.findPerson edge.origin with
  | none => none
  | some originPerson =>
    if isPersonExcluded args originPerson then some []
    else
      match model.findPerson edge.destination with
      | none => none
      | some destPerson =>
        if isPersonExcluded args destPerson then some []
        else
          some (edge.origin ++ " -> ".toList ++ destPerson.dotNodeName ++
                " [label=\"".toList ++ edge.type ++ "\", ".toList ++
                getEdgeDotStyle edge ++ "]".toList ++ "\n".toList)

/-- The edge loop of `getModelAsDot` over a list of edges. -/
def renderEdges (args : Args) (model : Model) : List Edge → Option Str
  | [] => some []
  | e :: rest =>
    match renderEdge args model e with
    | none => none
    | some s =>
      match renderEdges args model rest with
      | none => none
      | some r => some (s ++ r)

/-- `getModelAsDot` (src/orgviz.py:390-420); `none` is a raised
exception (edge endpoint lookup failure). -/
def getModelAsDot (args : Args) (model : Model) : Option Str :=
  let out := "digraph \x7b\n".toList ++
    (if args.outputType = "png".toList then
      "graph [ dpi = ".toList ++ (Nat.repr args.dpi).toList ++ " ]\n".toList
    else []) ++
    (if !args.skipDrawingTitle then
      "label=\"".toList ++ model.title ++ " - github.com/jamesread/orgviz\"\n".toList
    else []) ++
    "labelloc=\"t\"\n".toList ++
    "fontname=Overpass\n".toList ++
    "node [fontname=Overpass, shape=record]\n".toList ++
    "edge [fontname=Overpass, fontsize=9]\n".toList ++
    getTeamsAsDot args model ++
    ((model.people.map Prod.snd).filterMap fun person =>
      if isPersonExcluded args person then none
      else
        some (person.dotNodeName ++ " [margin=0, border=invisible, label=".toList ++
              getPersonLabelAsDot args person ++ ",".toList ++
              getInfluenceStyleAsDot args person.influence ++ "]\n".toList)).flatten
  match renderEdges args model model.edges with
  | none => none
  | some es => some (out ++ es ++ getLegendAsDot args ++ "\x7d".toList)

/-! ### Lemmas about the Python string helpers -/

theorem pyStripL_eq_rdropWhile (l : Str) :
    pyStripL l = List.rdropWhile pyWhitespace (List.dropWhile pyWhitespace l) := rfl

theorem dropWhile_head_false {p : Char → Bool} :
    ∀ {l a t}, List.dropWhile p l = a :: t → p a = false := by
  intro l
  induction l with
  | nil => intro a t h; cases h
  | cons x xs ih =>
    intro a t h
    rw [List.dropWhile_cons] at h
    by_cases hx : p x
    · rw [if_pos hx] at h; exact ih h
    · rw [if_neg hx] at h
      cases h
      simpa using hx

theorem dropWhile_pyStripL (l : Str) :
    List.dropWhile pyWhitespace (pyStripL l) = pyStripL l := by
  rcases hp : pyStripL l with _ | ⟨a, t⟩
  · rfl
  · obtain ⟨s, hs⟩ : pyStripL l <+: List.dropWhile pyWhitespace l :=
      List.rdropWhile_prefix pyWhitespace (List.dropWhile pyWhitespace l)
    rw [hp] at hs
    have hu : List.dropWhile pyWhitespace l = a :: (t ++ s) := by
      rw [← hs]; rfl
    have ha := dropWhile_head_false hu
    rw [List.dropWhile_cons, if_neg (by simp [ha])]

theorem pyStripL_idem (l : Str) : pyStripL (pyStripL l) = pyStripL l := by
  rw [pyStripL_eq_rdropWhile (pyStripL l), dropWhile_pyStripL,
      pyStripL_eq_rdropWhile l, List.rdropWhile_idempotent]

theorem pyStripL_map {g : Char → Char} (hg : ∀ c, pyWhitespace (g c) = pyWhitespace c)
    (l : Str) : pyStripL (l.map g) = (pyStripL l).map g := by
  have hpg : (pyWhitespace ∘ g) = pyWhitespace := funext hg
  unfold pyStripL
  rw [List.dropWhile_map, hpg, ← List.map_reverse, List.dropWhile_map, hpg, ← List.map_reverse]

theorem mem_of_mem_pyStripL {c : Char} {l : Str} (h : c ∈ pyStripL l) : c ∈ l := by
  rw [pyStripL_eq_rdropWhile] at h
  exact (List.dropWhile_suffix pyWhitespace).sublist.mem
    ((List.rdropWhile_prefix pyWhitespace _).sublist.mem h)

theorem mem_replaceChar_cases {old new c : Char} {l : Str}
    (h : c ∈ replaceChar old new l) : c = new ∨ c ∈ l := by
  obtain ⟨a, hal, ha⟩ := List.mem_map.mp h
  by_cases hc : a = old
  · left; rw [hc, if_pos rfl] at ha; exact ha.symm
  · right; rw [if_neg hc] at ha; rw [← ha]; exact hal

theorem mem_replaceChar_ne_old {old new c : Char} {l : Str} (hne : old ≠ new)
    (h : c ∈ replaceChar old new l) : c ≠ old := by
  obtain ⟨a, _, ha⟩ := List.mem_map.mp h
  by_cases hc : a = old
  · rw [hc, if_pos rfl] at ha
    rw [← ha]
    exact fun hx => hne hx.symm
  · rw [if_neg hc] at ha
    rw [← ha]
    exact hc

theorem mem_removeChar {old c : Char} {l : Str} (h : c ∈ removeChar old l) :
    c ∈ l ∧ c ≠ old := by
  have := List.mem_filter.mp h
  refine ⟨this.1, ?_⟩
  simpa using this.2

theorem map_eq_self_of {f : Char → Char} {l : Str} (h : ∀ a ∈ l, f a = a) :
    l.map f = l := by
  conv_rhs => rw [← List.map_id l]
  exact List.map_congr_left h

theorem replaceChar_eq_self {old new : Char} {l : Str} (h : ∀ c ∈ l, c ≠ old) :
    replaceChar old new l = l :=
  map_eq_self_of fun a ha => if_neg (h a ha)

theorem removeChar_eq_self {old : Char} {l : Str} (h : ∀ c ∈ l, c ≠ old) :
    removeChar old l = l :=
  List.filter_eq_self.mpr fun a ha => by simpa using h a ha

/-! ### C2: the derived nodeId -/

theorem nodeId_chars (name : Str) :
    ∀ c ∈ convertHumanNameToDotNodeName name, c ≠ ' ' ∧ c ≠ '-' ∧ c ≠ '‘' := by
  intro c hc
  unfold convertHumanNameToDotNodeName at hc
  refine ⟨?_, ?_, mem_replaceChar_ne_old (by decide) hc⟩
  · rcases mem_replaceChar_cases hc with h | h
    · rw [h]; decide
    · have h4 := mem_of_mem_pyStripL ((mem_removeChar (mem_of_mem_pyStripL h)).1)
      exact mem_replaceChar_ne_old (by decide) h4
  · rcases mem_replaceChar_cases hc with h | h
    · rw [h]; decide
    · exact (mem_removeChar (mem_of_mem_pyStripL h)).2

theorem pyStripL_nodeId (name : Str) :
    pyStripL (convertHumanNameToDotNodeName name) = convertHumanNameToDotNodeName name := by
  have hws : ∀ c : Char, pyWhitespace (if c = '‘' then '_' else c) = pyWhitespace c := by
    intro c
    by_cases h : c = '‘'
    · rw [if_pos h, h]; decide
    · rw [if_neg h]
  unfold convertHumanNameToDotNodeName replaceChar
  rw [pyStripL_map hws, pyStripL_idem]

/-- C2 (amended): the derived nodeId is obtained from the full name by
trimming and replacing spaces with underscores, removing hyphens, and
replacing the right single quote character with an underscore (the
source replaces it, it does not remove it); the derivation is a pure
function, idempotent under re-derivation, and its result contains no
space, no hyphen and no quote character. -/
theorem nodeId_idempotent_and_clean (name : Str) :
    convertHumanNameToDotNodeName (convertHumanNameToDotNodeName name) =
      convertHumanNameToDotNodeName name ∧
    ∀ c ∈ convertHumanNameToDotNodeName name, c ≠ ' ' ∧ c ≠ '-' ∧ c ≠ '‘' := by
  refine ⟨?_, nodeId_chars name⟩
  have hch := nodeId_chars name
  have h1 : pyStripL (convertHumanNameToDotNodeName name) = convertHumanNameToDotNodeName name :=
    pyStripL_nodeId name
  have h2 : replaceChar ' ' '_' (convertHumanNameToDotNodeName name) =
      convertHumanNameToDotNodeName name :=
    replaceChar_eq_self fun c hc => (hch c hc).1
  have h3 : removeChar '-' (convertHumanNameToDotNodeName name) =
      convertHumanNameToDotNodeName name :=
    removeChar_eq_self fun c hc => (hch c hc).2.1
  have h4 : replaceChar '‘' '_' (convertHumanNameToDotNodeName name) =
      convertHumanNameToDotNodeName name :=
    replaceChar_eq_self fun c hc => (hch c hc).2.2
  calc convertHumanNameToDotNodeName (convertHumanNameToDotNodeName name)
      = replaceChar '‘' '_' (pyStripL (removeChar '-' (pyStripL (replaceChar ' ' '_'
          (pyStripL (convertHumanNameToDotNodeName name)))))) := rfl
    _ = convertHumanNameToDotNodeName name := by rw [h1, h2, h1, h3, h1, h4]

/-- C2 counterexample: the quote character is replaced by an
underscore, not removed, so the nodeId of `O‘Brien` is `O_Brien` and
not the `OBrien` the claim prescribes. -/
theorem nodeId_quote_replaced_not_removed :
    convertHumanNameToDotNodeName "O‘Brien".toList = "O_Brien".toList ∧
    "O_Brien".toList ≠ "OBrien".toList := by decide

/-! ### C10: attribute reads -/

/-- The per-character effect of the sanitization the spec describes:
ampersand escaped, pipe turned into a space, all other characters
kept. -/
def sanitizeSpecChar (c : Char) : Str :=
  if c = '&' then "&amp;".toList else if c = '|' then [' '] else [c]

/-- The sanitization of a stored attribute value as the spec words it:
escape, de-pipe, then trim. -/
def sanitizeSpec (raw : Str) : Str :=
  pyStripL (raw.map sanitizeSpecChar).flatten

theorem replace_amp_then_pipe (raw : Str) :
    replaceChar '|' ' ' (replaceCharStr '&' "&amp;".toList raw) =
      (raw.map sanitizeSpecChar).flatten := by
  induction raw with
  | nil => rfl
  | cons c t ih =>
    show replaceChar '|' ' '
        (((c :: t).map fun c => if c = '&' then "&amp;".toList else [c]).flatten) = _
    rw [List.map_cons, List.flatten_cons, List.map_cons, List.flatten_cons]
    show replaceChar '|' ' ' (_ ++ _) = _
    unfold replaceChar
    rw [List.map_append]
    have htail : List.map (fun c => if c = '|' then ' ' else c)
        ((t.map fun c => if c = '&' then "&amp;".toList else [c]).flatten) =
        (t.map sanitizeSpecChar).flatten := ih
    rw [htail]
    congr 1
    by_cases h1 : c = '&'
    · subst h1; decide
    · rw [if_neg h1]
      by_cases h2 : c = '|'
      · subst h2; decide
      · simp [sanitizeSpecChar, h1, h2]

/-- C10: the attribute read used by labels and filtering replaces
ampersand with its escape, pipe with a space and trims the result, and
returns the placeholder when the key is absent or the sanitized value
is empty. -/
theorem getAttribute_sanitizes_and_placeholder (p : Person) (key : Str) :
    p.getAttribute key =
      match dictLookup p.attributes key with
      | none => "Unknown: ".toList ++ key
      | some raw =>
        if sanitizeSpec raw = [] then "Unknown: ".toList ++ key else sanitizeSpec raw := by
  unfold Person.getAttribute
  cases h : dictLookup p.attributes key with
  | none => rfl
  | some raw =>
    show (if pyStripL (replaceChar '|' ' ' (replaceCharStr '&' "&amp;".toList raw)) ≠ [] then
        pyStripL (replaceChar '|' ' ' (replaceCharStr '&' "&amp;".toList raw))
      else "Unknown: ".toList ++ key) = _
    rw [replace_amp_then_pipe]
    show (if sanitizeSpec raw ≠ [] then sanitizeSpec raw else "Unknown: ".toList ++ key) = _
    by_cases hx : sanitizeSpec raw = [] <;> simp [hx]

/-! ### C6: the filter predicate -/

theorem attributeSearchExcludes_eq_false_iff (person : Person) (s : Str) :
    attributeSearchExcludes person s = false ↔
      ∀ k v, splitOnFirst ['='] s = some (k, v) →
        pyStripL v <:+: person.getAttribute (pyStripL k) := by
  unfold attributeSearchExcludes
  cases h : splitOnFirst ['='] s with
  | none => simp
  | some kv =>
    simp only [Bool.not_eq_false', decide_eq_true_eq, Option.some.injEq]
    constructor
    · rintro hp k v ⟨rfl, rfl⟩
      exact hp
    · intro hall
      exact hall kv.1 kv.2 rfl

/-- C6: a person passes the filter (is not excluded) exactly when every
well-formed `key=substring` criterion finds its trimmed substring in
the person's rendered attribute value, the team axis passes (no team
criterion, or membership), and the influence axis passes (no influence
criterion, or membership); an empty criterion list constrains
nothing. -/
theorem isPersonExcluded_false_iff (args : Args) (person : Person) :
    isPersonExcluded args person = false ↔
      ((∀ s ∈ args.attributeMatches, ∀ k v, splitOnFirst ['='] s = some (k, v) →
          pyStripL v <:+: person.getAttribute (pyStripL k)) ∧
       (args.teams = [] ∨ person.team ∈ args.teams) ∧
       (args.influence = [] ∨ person.influence ∈ args.influence)) := by
  have hA : ¬(0 < args.attributeMatches.length ∧
      args.attributeMatches.any (attributeSearchExcludes person) = true) ↔
      ∀ s ∈ args.attributeMatches, attributeSearchExcludes person s = false := by
    constructor
    · intro h s hs
      by_contra hb
      exact h ⟨List.length_pos.mpr (List.ne_nil_of_mem hs),
        List.any_eq_true.mpr ⟨s, hs, by simpa using hb⟩⟩
    · rintro h ⟨_, hany⟩
      obtain ⟨s, hs, hf⟩ := List.any_eq_true.mp hany
      rw [h s hs] at hf
      cases hf
  have hB : ∀ (l : List Str) (x : Str), ¬(0 < l.length ∧ x ∉ l) ↔ (l = [] ∨ x ∈ l) := by
    intro l x
    constructor
    · intro h
      rcases l with _ | ⟨a, t⟩
      · exact Or.inl rfl
      · refine Or.inr ?_
        by_contra hb
        exact h ⟨by simp, hb⟩
    · rintro (rfl | hm) ⟨hl, hn⟩
      · simp at hl
      · exact hn hm
  have hsplit : isPersonExcluded args person = false ↔
      (¬(0 < args.attributeMatches.length ∧
          args.attributeMatches.any (attributeSearchExcludes person) = true) ∧
       ¬(0 < args.teams.length ∧ person.team ∉ args.teams) ∧
       ¬(0 < args.influence.length ∧ person.influence ∉ args.influence)) := by
    unfold isPersonExcluded
    split_ifs with h1 h2 h3
    · exact iff_of_false (by simp) fun h => h.1 h1
    · exact iff_of_false (by simp) fun h => h.2.1 h2
    · exact iff_of_false (by simp) fun h => h.2.2 h3
    · exact iff_of_true rfl ⟨h1, h2, h3⟩
  rw [hsplit, hA, hB, hB]
  constructor
  · rintro ⟨ha, hb, hc⟩
    exact ⟨fun s hs => (attributeSearchExcludes_eq_false_iff person s).mp (ha s hs), hb, hc⟩
  · rintro ⟨ha, hb, hc⟩
    exact ⟨fun s hs => (attributeSearchExcludes_eq_false_iff person s).mpr (ha s hs), hb, hc⟩

/-! ### C9: the legend -/

/-- A canonical option set with influence styling selected and nothing
suppressed; used to name the fixed legend text and the influence color
table below. -/
def argsInf : Args :=
  { skipDrawingLegend := false
    skipDrawingTeams := false
    skipDrawingTitle := false
    teams := []
    influence := []
    attributeMatches := []
    profilePictures := false
    profilePictureDirectory := []
    profilePictureExists := fun _ => false
    outputType := "svg".toList
    vizType := "inf".toList
    dpi := 100 }

theorem getLegendAsDot_const (a : Args) (h1 : a.skipDrawingLegend = false)
    (h2 : a.vizType = "inf".toList) : getLegendAsDot a = getLegendAsDot argsInf := by
  unfold getLegendAsDot
  rw [h1, h2]
  rfl

set_option maxRecDepth 20000 in
/-- C9 (amended): the legend block is emitted iff the styling mode is
`inf` and legend drawing is not suppressed; when emitted it is one
fixed subgraph holding a four-entry color key whose colors match the
influence lookup table (skyblue, GreenYellow, salmon, black with white
font) but whose salmon entry is labeled `hostile`, while the influence
table's salmon key is `enemy`. -/
theorem legend_emission_and_entries (args : Args) :
    (getLegendAsDot args ≠ [] ↔
      (args.skipDrawingLegend = false ∧ args.vizType = "inf".toList)) ∧
    (getLegendAsDot args = [] ∨ getLegendAsDot args = getLegendAsDot argsInf) ∧
    ("supporter [fillcolor=skyblue, style=filled]\n".toList <:+: getLegendAsDot argsInf) ∧
    ("promoter [fillcolor=GreenYellow, style=filled]\n".toList <:+: getLegendAsDot argsInf) ∧
    ("hostile [fillcolor=salmon, style=filled]\n".toList <:+: getLegendAsDot argsInf) ∧
    ("internal [fillcolor=black, fontcolor = white, style=filled]\n".toList <:+:
      getLegendAsDot argsInf) ∧
    getInfluenceStyleAsDot argsInf "supporter".toList =
      "fillcolor=skyblue, style=filled".toList ∧
    getInfluenceStyleAsDot argsInf "promoter".toList =
      "fillcolor=GreenYellow, style=filled".toList ∧
    getInfluenceStyleAsDot argsInf "enemy".toList =
      "fillcolor=salmon, style=filled".toList ∧
    getInfluenceStyleAsDot argsInf "internal".toList =
      "fillcolor=black, style=filled, fontcolor=white".toList := by
  have hempty1 : args.skipDrawingLegend = true → getLegendAsDot args = [] := by
    intro h
    unfold getLegendAsDot
    rw [h]
    rfl
  have hempty2 : args.vizType ≠ "inf".toList → getLegendAsDot args = [] := by
    intro h
    unfold getLegendAsDot
    rw [if_neg h]
    simp
  have hfull : getLegendAsDot argsInf ≠ [] := by decide
  refine ⟨⟨?_, ?_⟩, ?_, by decide, by decide, by decide, by decide,
    by decide, by decide, by decide, by decide⟩
  · intro h
    constructor
    · by_contra hb
      have hb2 : args.skipDrawingLegend = true := by
        revert hb
        cases args.skipDrawingLegend <;> simp
      exact h (hempty1 hb2)
    · by_contra hb
      exact h (hempty2 hb)
  · rintro ⟨h1, h2⟩
    rw [getLegendAsDot_const args h1 h2]
    exact hfull
  · by_cases h1 : args.skipDrawingLegend = true
    · exact Or.inl (hempty1 h1)
    · have h1f : args.skipDrawingLegend = false := by
        revert h1
        cases args.skipDrawingLegend <;> simp
      by_cases h2 : args.vizType = "inf".toList
      · exact Or.inr (getLegendAsDot_const args h1f h2)
      · exact Or.inl (hempty2 h2)

set_option maxRecDepth 20000 in
/-- C9 counterexample: the legend contains no `enemy` entry at all (the
salmon legend node is labeled `hostile`), so its entries do not match
the influence lookup table keyed by `enemy`. -/
theorem legend_has_no_enemy_entry :
    getInfluenceStyleAsDot argsInf "enemy".toList = "fillcolor=salmon, style=filled".toList ∧
    ¬ ("enemy".toList <:+: getLegendAsDot argsInf) := by decide

/-! ### C1: unparsable detail lines -/

/-- C1 (code bug, evaluated at the failing input): the warning branch
for an unparsable detail line does not skip the line — control falls
through to `model.addPerson`, so parsing `"Alice\n\tfoo"` yields two
people (`Alice` and a new person `foo`) instead of the model that
parsing `"Alice"` alone yields. -/
theorem unparsable_detail_line_adds_person :
    (parseModel "Alice\n\tfoo".toList).map (fun m => m.people.map Prod.fst) =
      some ["Alice".toList, "foo".toList] ∧
    (parseModel "Alice".toList).map (fun m => m.people.map Prod.fst) =
      some ["Alice".toList] ∧
    (parseModel "Alice\n\tfoo".toList).map Model.edges = some [] ∧
    (parseModel "Alice\n\tfoo".toList).map Model.teams = some [] := by decide

/-! ### C3: documents of person-declaration lines only -/

/-- C3 counterexample: two person-declaration lines whose names derive
the same nodeId collapse into one dictionary entry, so the person
count (1) is below the number of non-blank, non-indented lines (2). -/
theorem duplicate_person_lines_collapse :
    (parseModel "Alice\nAlice".toList).map (fun m => m.people.length) = some 1 ∧
    ((splitAllChar '\n' "Alice\nAlice".toList).filter (fun l => l ≠ [])).length = 2 := by decide

/-! ### C8: document-level directives -/

/-- C8 counterexample: the directive branch runs
`line.replace("@", "")`, which removes every `@` including those in
the value, so `@title: a@b` sets the title to `ab` and not to the
trimmed value `a@b`. -/
theorem directive_strips_at_signs_from_value :
    (parseLineL Model.init "@title: a@b".toList).map Model.title = some "ab".toList ∧
    pyStripL " a@b".toList = "a@b".toList ∧
    "ab".toList ≠ "a@b".toList := by decide

/-! ### C5: unrecognized dmu and sentiment values -/

theorem splitOnFirst_isSome_of_mem {c : Char} {l : Str} (h : c ∈ l) :
    (splitOnFirst [c] l).isSome = true := by
  induction l with
  | nil => cases h
  | cons x xs ih =>
    unfold splitOnFirst
    by_cases hx : [c].isPrefixOf (x :: xs)
    · rw [if_pos hx]
      rfl
    · rw [if_neg hx]
      have hcx : c ≠ x := by
        intro hc
        apply hx
        subst hc
        simp [List.isPrefixOf]
      have hmem : c ∈ xs := by
        rcases List.mem_cons.mp h with hc | hc
        · exact absurd hc hcx
        · exact hc
      have hsome := ih hmem
      cases hs : splitOnFirst [c] xs with
      | none => rw [hs] at hsome; cases hsome
      | some p => simp [hs]

theorem updateLastPerson_isSome (m : Model) (f : Person → Person) :
    (m.updateLastPerson f).isSome = m.lastPerson.isSome := by
  unfold Model.updateLastPerson
  cases m.lastPerson <;> rfl

theorem addTeam_lastPerson (m : Model) (t : Str) :
    (m.addTeam t).lastPerson = m.lastPerson := by
  unfold Model.addTeam
  split <;> rfl

theorem parsePersonProperty_isSome (m : Model) (line : Str)
    (hm : m.lastPerson.isSome = true) (hc : ':' ∈ line) :
    (parsePersonProperty m line).isSome = true := by
  unfold parsePersonProperty
  have hsome := splitOnFirst_isSome_of_mem hc
  cases h : splitOnFirst [':'] line with
  | none => rw [h] at hsome; cases hsome
  | some kv =>
    dsimp only
    split_ifs <;> simp [updateLastPerson_isSome, addTeam_lastPerson, hm]

/-- C5: a dmu value matching none of the recognized case-insensitive
aliases resets the dmu field to its default `U` and logs exactly one
warning; a sentiment value matching none of the recognized aliases
resets the sentiment field to its default `N` and logs exactly one
warning; neither setter can fail, and a property line never aborts the
parse while a person is current. -/
theorem unrecognized_dmu_sentiment_fall_back (p : Person) (v : Str) (m : Model) (line : Str)
    (hd : pyStripL (pyUpper v) ∉
      ["D".toList, "DECISION MAKER".toList, "DM".toList, "B".toList, "BUYER".toList,
       "BUY".toList, "I".toList, "INFLUENCER".toList, "G".toList, "GATEKEEPER".toList,
       "U".toList, "USER".toList])
    (hs : pyStripL (pyUpper v) ∉
      ["P".toList, "PROMOTOR".toList, "PROMOTER".toList, "PROPONENT".toList, "O".toList,
       "OPPONENT".toList, "N".toList, "NEUTRAL".toList])
    (hm : m.lastPerson.isSome = true) (hc : ':' ∈ line) :
    ((p.setDmu v).1.dmu = "U".toList ∧ (p.setDmu v).2.length = 1) ∧
    ((p.setSentiment v).1.sentiment = "N".toList ∧ (p.setSentiment v).2.length = 1) ∧
    (parsePersonProperty m line).isSome = true := by
  refine ⟨?_, ?_, parsePersonProperty_isSome m line hm hc⟩
  · simp only [List.mem_cons, List.not_mem_nil, not_or, or_false] at hd
    unfold Person.setDmu
    rw [if_neg (by simp only [List.mem_cons, List.not_mem_nil, or_false]; tauto),
        if_neg (by simp only [List.mem_cons, List.not_mem_nil, or_false]; tauto),
        if_neg (by simp only [List.mem_cons, List.not_mem_nil, or_false]; tauto),
        if_neg (by simp only [List.mem_cons, List.not_mem_nil, or_false]; tauto),
        if_neg (by simp only [List.mem_cons, List.not_mem_nil, or_false]; tauto)]
    exact ⟨rfl, rfl⟩
  · simp only [List.mem_cons, List.not_mem_nil, not_or, or_false] at hs
    unfold Person.setSentiment
    rw [if_neg (by simp only [List.mem_cons, List.not_mem_nil, or_false]; tauto),
        if_neg (by simp only [List.mem_cons, List.not_mem_nil, or_false]; tauto),
        if_neg (by simp only [List.mem_cons, List.not_mem_nil, or_false]; tauto)]
    exact ⟨rfl, rfl⟩

/-- C5 witness: the value `zzz` on a model whose current person is
`Alice`. -/
theorem unrecognized_dmu_sentiment_fall_back_witness :
    (pyStripL (pyUpper "zzz".toList) ∉
      ["D".toList, "DECISION MAKER".toList, "DM".toList, "B".toList, "BUYER".toList,
       "BUY".toList, "I".toList, "INFLUENCER".toList, "G".toList, "GATEKEEPER".toList,
       "U".toList, "USER".toList]) ∧
    (pyStripL (pyUpper "zzz".toList) ∉
      ["P".toList, "PROMOTOR".toList, "PROMOTER".toList, "PROPONENT".toList, "O".toList,
       "OPPONENT".toList, "N".toList, "NEUTRAL".toList]) ∧
    (Model.init.addPerson "Alice".toList).lastPerson.isSome = true ∧
    ':' ∈ "x: y".toList ∧
    ((((Person.init "Alice".toList).setDmu "zzz".toList).1.dmu = "U".toList ∧
      ((Person.init "Alice".toList).setDmu "zzz".toList).2.length = 1) ∧
     (((Person.init "Alice".toList).setSentiment "zzz".toList).1.sentiment = "N".toList ∧
      ((Person.init "Alice".toList).setSentiment "zzz".toList).2.length = 1) ∧
     (parsePersonProperty (Model.init.addPerson "Alice".toList) "x: y".toList).isSome = true) :=
  ⟨by decide, by decide, by decide, by decide,
   unrecognized_dmu_sentiment_fall_back (Person.init "Alice".toList) "zzz".toList
     (Model.init.addPerson "Alice".toList) "x: y".toList
     (by decide) (by decide) (by decide) (by decide)⟩

/-! ### C7: team subgraphs -/

/-- The declaration part of one team subgraph block: everything before
the member list.  It depends only on the running block counter and the
team name — not on the model's people nor on any filter option. -/
def teamDeclSpec (subGraphCount : Nat) (teamName : Str) : Str :=
  "subgraph cluster_".toList ++ (Nat.repr subGraphCount).toList ++ "\x7b\n".toList ++
  "label=\"".toList ++ teamName ++ "\"\n".toList ++
  "style=filled\n".toList ++
  "fillcolor=skyblue\n".toList

/-- The filtered member list inside one team subgraph block. -/
def teamMembersSpec (args : Args) (model : Model) (teamName : Str) : Str :=
  ((model.people.map Prod.snd).filterMap fun person =>
    if isPersonExcluded args person then none
    else if person.team = teamName then some (person.dotNodeName ++ " []\n".toList)
    else none).flatten

theorem getTeamsAsDotBlock_eq (args : Args) (model : Model) (n : Nat) (t : Str) :
    getTeamsAsDotBlock args model n t =
      teamDeclSpec n t ++ teamMembersSpec args model t ++ "\x7d\n".toList := by
  unfold getTeamsAsDotBlock teamDeclSpec teamMembersSpec
  simp [List.append_assoc]

/-- C7: when team drawing is not suppressed the renderer emits exactly
one subgraph block per declared team name — the block list has the
same length as the team list — and each block is a team declaration
(independent of the filter configuration) followed by the filtered
member list and the closing brace, so a team whose members are all
excluded still gets its (empty) subgraph declaration. -/
theorem team_subgraphs_always_emitted (args : Args) (model : Model)
    (h : args.skipDrawingTeams = false) :
    getTeamsAsDot args model = (getTeamsAsDotList args model).flatten ∧
    (getTeamsAsDotList args model).length = model.teams.length ∧
    getTeamsAsDotList args model = model.teams.enum.map
      (fun it => teamDeclSpec (it.1 + 1) it.2 ++ teamMembersSpec args model it.2 ++
        "\x7d\n".toList) := by
  refine ⟨?_, ?_, ?_⟩
  · unfold getTeamsAsDot
    rw [h]
    rfl
  · unfold getTeamsAsDotList
    simp
  · unfold getTeamsAsDotList
    apply List.map_congr_left
    intro it _
    exact getTeamsAsDotBlock_eq args model (it.1 + 1) it.2

/-- Options that exclude every person through the team filter while
leaving team drawing on. -/
def argsTeamFilter : Args := { argsInf with teams := ["Zzz".toList] }

/-- A model with one declared team `Eng` whose only member is `Alice`. -/
def modelOneTeam : Model :=
  { title := "T".toList
    people := [("Alice".toList, { Person.init "Alice".toList with team := "Eng".toList })]
    edges := []
    teams := ["Eng".toList]
    lastPerson := some "Alice".toList }

/-- C7 witness: with a filter that excludes the only member of the
only team, the block list still has one entry per team and the `Eng`
member list is empty. -/
theorem team_subgraphs_always_emitted_witness :
    argsTeamFilter.skipDrawingTeams = false ∧
    (getTeamsAsDot argsTeamFilter modelOneTeam =
        (getTeamsAsDotList argsTeamFilter modelOneTeam).flatten ∧
     (getTeamsAsDotList argsTeamFilter modelOneTeam).length = modelOneTeam.teams.length ∧
     getTeamsAsDotList argsTeamFilter modelOneTeam = modelOneTeam.teams.enum.map
       (fun it => teamDeclSpec (it.1 + 1) it.2 ++
         teamMembersSpec argsTeamFilter modelOneTeam it.2 ++ "\x7d\n".toList)) ∧
    teamMembersSpec argsTeamFilter modelOneTeam "Eng".toList = [] :=
  ⟨rfl, team_subgraphs_always_emitted argsTeamFilter modelOneTeam rfl, by decide⟩

/-! ### C8 continued: the directive theorem -/

theorem removeChar_cons_self (c : Char) (l : Str) :
    removeChar c (c :: l) = removeChar c l := by
  simp [removeChar]

theorem removeChar_cons_ne {x c : Char} (h : x ≠ c) (l : Str) :
    removeChar c (x :: l) = x :: removeChar c l := by
  simp [removeChar, List.filter_cons, h]

theorem removeChar_append (c : Char) (a b : Str) :
    removeChar c (a ++ b) = removeChar c a ++ removeChar c b := by
  simp [removeChar]

theorem splitOnFirst_append_cons {c : Char} {k v : Str} (hk : c ∉ k) :
    splitOnFirst [c] (k ++ c :: v) = some (k, v) := by
  induction k with
  | nil =>
    show splitOnFirst [c] (c :: v) = some ([], v)
    unfold splitOnFirst
    rw [if_pos (by simp [List.isPrefixOf])]
    rfl
  | cons x xs ih =>
    have hcx : c ≠ x := by
      intro hc
      exact hk (by rw [hc]; exact List.mem_cons_self x xs)
    show splitOnFirst [c] (x :: (xs ++ c :: v)) = some (x :: xs, v)
    unfold splitOnFirst
    rw [if_neg (by simp [List.isPrefixOf]; exact hcx)]
    rw [ih fun hmem => hk (List.mem_cons_of_mem x hmem)]

/-- C8 (amended): a non-indented line of the form `@key: value` (with
no `@` or `:` inside the key) is a document-level directive: when the
key is `title` the model's title becomes the trimmed value after every
`@` character has been removed from it (the global `@` replacement also
hits the value); any other key leaves the model completely unchanged,
and no directive line ever declares a person. -/
theorem directive_line_only_sets_title (m : Model) (k v : Str)
    (hk1 : '@' ∉ k) (hk2 : ':' ∉ k) :
    parseLineL m ('@' :: (k ++ ':' :: v)) =
      some (if k = "title".toList then
        { m with title := pyStripL (removeChar '@' v) } else m) := by
  unfold parseLineL
  rw [if_neg (by simp)]
  rw [if_pos ⟨by rfl, by simp⟩]
  have hrem : removeChar '@' ('@' :: (k ++ ':' :: v)) = k ++ ':' :: removeChar '@' v := by
    rw [removeChar_cons_self, removeChar_append,
        removeChar_eq_self (by intro x hx he; subst he; exact hk1 hx),
        removeChar_cons_ne (by decide)]
  rw [hrem]
  dsimp only
  rw [splitOnFirst_append_cons hk2]
  dsimp only
  by_cases hk : k = "title".toList
  · rw [if_pos hk, if_pos hk]
  · rw [if_neg hk, if_neg hk]

/-- C8 witness: `@title: Acme` (written with a leading space in the
value) sets the title to `Acme` and changes nothing else. -/
theorem directive_line_only_sets_title_witness :
    '@' ∉ "title".toList ∧ ':' ∉ "title".toList ∧
    parseLineL Model.init ('@' :: ("title".toList ++ ':' :: " Acme".toList)) =
      some (if "title".toList = "title".toList then
        { Model.init with title := pyStripL (removeChar '@' " Acme".toList) }
      else Model.init) :=
  ⟨by decide, by decide,
   directive_line_only_sets_title Model.init "title".toList " Acme".toList
     (by decide) (by decide)⟩

/-! ### C4: edge endpoint resolution -/

theorem renderEdge_bad_none (args : Args) (model : Model) (e : Edge)
    (h : model.findPerson e.origin = none ∨
      ∃ p, model.findPerson e.origin = some p ∧ isPersonExcluded args p = false ∧
        model.findPerson e.destination = none) :
    renderEdge args model e = none := by
  unfold renderEdge
  rcases h with h | ⟨p, hp, hex, hd⟩
  · rw [h]
  · rw [hp]
    dsimp only
    rw [if_neg (by simp [hex]), hd]

theorem renderEdges_none (args : Args) (model : Model) (e : Edge) :
    ∀ l : List Edge, e ∈ l → renderEdge args model e = none →
      renderEdges args model l = none := by
  intro l
  induction l with
  | nil => intro h; cases h
  | cons a rest ih =>
    intro hmem hbad
    unfold renderEdges
    rcases List.mem_cons.mp hmem with rfl | hmem2
    · rw [hbad]
    · cases ha : renderEdge args model a with
      | none => rfl
      | some s =>
        dsimp only
        rw [ih hmem2 hbad]

/-- C4 (amended): rendering raises a hard error for an edge whose
origin nodeId resolves to no person (neither by dictionary key nor by
a person's `id` attribute), and likewise when the origin resolves to a
person the filter keeps but the destination resolves to no person; an
unresolvable destination on an edge whose origin person is excluded is
not detected, because the short-circuit skips the edge before
resolving the destination. -/
theorem unresolvable_edge_endpoint_fails_render (args : Args) (model : Model) (e : Edge)
    (he : e ∈ model.edges)
    (h : model.findPerson e.origin = none ∨
      ∃ p, model.findPerson e.origin = some p ∧ isPersonExcluded args p = false ∧
        model.findPerson e.destination = none) :
    getModelAsDot args model = none := by
  unfold getModelAsDot
  rw [renderEdges_none args model e model.edges he (renderEdge_bad_none args model e h)]

/-- Options with default filters (nothing excluded) and `DS` styling. -/
def argsNoFilter : Args := { argsInf with vizType := "DS".toList }

/-- A model whose single edge points at a person that does not exist. -/
def modelDangling : Model :=
  { title := "T".toList
    people := [("Alice".toList, Person.init "Alice".toList)]
    edges := [{ origin := "Alice".toList, type := "knows".toList, destination := "Bob".toList }]
    teams := []
    lastPerson := some "Alice".toList }

/-- C4 witness: rendering the model with the dangling destination and
no filters fails hard. -/
theorem unresolvable_edge_endpoint_fails_render_witness :
    ({ origin := "Alice".toList, type := "knows".toList,
       destination := "Bob".toList } : Edge) ∈ modelDangling.edges ∧
    (modelDangling.findPerson "Alice".toList = some (Person.init "Alice".toList) ∧
     isPersonExcluded argsNoFilter (Person.init "Alice".toList) = false ∧
     modelDangling.findPerson "Bob".toList = none) ∧
    getModelAsDot argsNoFilter modelDangling = none :=
  ⟨by decide, ⟨by decide, by decide, by decide⟩,
   unresolvable_edge_endpoint_fails_render argsNoFilter modelDangling
     { origin := "Alice".toList, type := "knows".toList, destination := "Bob".toList }
     (by decide)
     (Or.inr ⟨Person.init "Alice".toList, by decide, by decide, by decide⟩)⟩

/-- Options whose team filter excludes everyone outside team `Eng`. -/
def argsTeamEng : Args := { argsInf with vizType := "DS".toList, teams := ["Eng".toList] }

/-- The dangling-destination model with its only person on team
`Sales`, so the origin person is excluded by `argsTeamEng`. -/
def modelDanglingExcluded : Model :=
  { title := "T".toList
    people := [("Alice".toList, { Person.init "Alice".toList with team := "Sales".toList })]
    edges := [{ origin := "Alice".toList, type := "knows".toList, destination := "Bob".toList }]
    teams := ["Sales".toList]
    lastPerson := some "Alice".toList }

set_option maxRecDepth 40000 in
/-- C4 counterexample: this model contains an edge whose destination
resolves to no person, yet rendering succeeds, because the excluded
origin makes the renderer skip the edge before the destination is
ever resolved — the edge is silently dropped, not a hard error. -/
theorem excluded_origin_skips_unresolvable_destination :
    modelDanglingExcluded.findPerson "Bob".toList = none ∧
    modelDanglingExcluded.edges.map Edge.destination = ["Bob".toList] ∧
    (getModelAsDot argsTeamEng modelDanglingExcluded).isSome = true := by decide

/-! ### C3 continued: counting people in person-only documents -/

theorem convert_pyStripL (l : Str) :
    convertHumanNameToDotNodeName (pyStripL l) = convertHumanNameToDotNodeName l := by
  unfold convertHumanNameToDotNodeName
  rw [pyStripL_idem]

theorem dictInsert_keys {β : Type} (d : List (Str × β)) (k : Str) (v : β) :
    (dictInsert d k v).map Prod.fst =
      if k ∈ d.map Prod.fst then d.map Prod.fst else d.map Prod.fst ++ [k] := by
  induction d with
  | nil =>
    rw [show dictInsert ([] : List (Str × β)) k v = [(k, v)] from rfl]
    simp
  | cons kv rest ih =>
    unfold dictInsert
    by_cases h : kv.1 = k
    · subst h
      rw [if_pos rfl]
      rw [List.map_cons, List.map_cons, if_pos (List.mem_cons_self _ _)]
    · rw [if_neg h]
      simp only [List.map_cons]
      rw [ih]
      by_cases hk : k ∈ rest.map Prod.fst
      · rw [if_pos hk, if_pos (List.mem_cons_of_mem _ hk)]
      · rw [if_neg hk,
            if_neg (fun hmem => (List.mem_cons.mp hmem).elim (fun he => h he.symm) hk),
            List.cons_append]

/-- Insertion of a list of keys into an accumulator, skipping keys
already present: the key sequence a run of `dictInsert`s produces. -/
def insertKeys (ks : List Str) (ids : List Str) : List Str :=
  ids.foldl (fun a k => if k ∈ a then a else a ++ [k]) ks

theorem insertKeys_cons (ks : List Str) (a : Str) (ids : List Str) :
    insertKeys ks (a :: ids) = insertKeys (if a ∈ ks then ks else ks ++ [a]) ids := rfl

theorem insertKeys_nodup_toFinset :
    ∀ (ids : List Str) (ks : List Str), ks.Nodup →
      (insertKeys ks ids).Nodup ∧
      (insertKeys ks ids).toFinset = ks.toFinset ∪ ids.toFinset := by
  intro ids
  induction ids with
  | nil => intro ks h; exact ⟨h, by simp [insertKeys]⟩
  | cons id rest ih =>
    intro ks h
    rw [show insertKeys ks (id :: rest) =
      insertKeys (if id ∈ ks then ks else ks ++ [id]) rest from rfl]
    by_cases hid : id ∈ ks
    · rw [if_pos hid]
      obtain ⟨hn, he⟩ := ih ks h
      refine ⟨hn, ?_⟩
      rw [he, List.toFinset_cons]
      ext a
      simp only [Finset.mem_union, List.mem_toFinset, Finset.mem_insert]
      have himp : a = id → a ∈ ks := fun hh => hh ▸ hid
      tauto
    · rw [if_neg hid]
      have hnodup : (ks ++ [id]).Nodup := by
        simp [List.nodup_append, h, hid]
      obtain ⟨hn, he⟩ := ih (ks ++ [id]) hnodup
      refine ⟨hn, ?_⟩
      rw [he, List.toFinset_append, List.toFinset_cons]
      ext a
      simp only [Finset.mem_union, List.mem_toFinset, Finset.mem_insert, List.toFinset_cons,
        List.toFinset_nil, Finset.mem_singleton, List.mem_singleton]
      tauto

theorem insertKeys_nil_length (ids : List Str) :
    (insertKeys [] ids).length = ids.dedup.length := by
  obtain ⟨hn, he⟩ := insertKeys_nodup_toFinset ids [] List.nodup_nil
  have h1 : (insertKeys [] ids).toFinset.card = (insertKeys [] ids).length :=
    List.toFinset_card_of_nodup hn
  rw [← h1, he]
  simp [List.card_toFinset]

theorem Person.init_dotNodeName (l : Str) :
    (Person.init l).dotNodeName = convertHumanNameToDotNodeName (pyStripL l) := by
  simp only [Person.init]

theorem Model.addPerson_def (m : Model) (l : Str) :
    m.addPerson l =
      { m with
        people := dictInsert m.people (convertHumanNameToDotNodeName l) (Person.init l)
        lastPerson := some (convertHumanNameToDotNodeName l) } := by
  simp only [Model.addPerson, Person.init_dotNodeName, convert_pyStripL]

theorem parseLines_person_only :
    ∀ (lines : List Str) (m : Model),
      (∀ l ∈ lines, l ≠ [] →
        startsWithChar '\t' l = false ∧
        ¬(startsWithChar '@' l = true ∧ ':' ∈ l)) →
      ∃ m2, parseLines m lines = some m2 ∧ m2.edges = m.edges ∧
        m2.people.map Prod.fst =
          insertKeys (m.people.map Prod.fst)
            ((lines.filter (fun l => l ≠ [])).map
              (fun l => convertHumanNameToDotNodeName l)) := by
  intro lines
  induction lines with
  | nil => intro m _; exact ⟨m, rfl, rfl, rfl⟩
  | cons line rest ih =>
    intro m h
    by_cases hl : line = []
    · subst hl
      obtain ⟨m2, h1, h2, h3⟩ := ih m fun l hl2 => h l (List.mem_cons_of_mem _ hl2)
      refine ⟨m2, ?_, h2, ?_⟩
      · show parseLines m ([] :: rest) = some m2
        unfold parseLines
        rw [show parseLineL m [] = some m from rfl]
        exact h1
      · rw [h3]
        have hf : (([] : Str) :: rest).filter (fun l => l ≠ []) =
            rest.filter (fun l => l ≠ []) := by simp
        rw [hf]
    · obtain ⟨ht, ha⟩ := h line (List.mem_cons_self _ _) hl
      have hline : parseLineL m line = some (m.addPerson line) := by
        unfold parseLineL
        rw [if_neg hl, if_neg ha, if_neg (by simp [ht])]
      obtain ⟨m2, h1, h2, h3⟩ :=
        ih (m.addPerson line) fun l hl2 => h l (List.mem_cons_of_mem _ hl2)
      refine ⟨m2, ?_, ?_, ?_⟩
      · show parseLines m (line :: rest) = some m2
        unfold parseLines
        rw [hline]
        exact h1
      · rw [h2, Model.addPerson_def]
      · have hstep : (m.addPerson line).people.map Prod.fst =
            if convertHumanNameToDotNodeName line ∈ m.people.map Prod.fst
            then m.people.map Prod.fst
            else m.people.map Prod.fst ++ [convertHumanNameToDotNodeName line] := by
          rw [Model.addPerson_def]
          dsimp only
          rw [dictInsert_keys]
        have hf : (line :: rest).filter (fun l => l ≠ []) =
            line :: rest.filter (fun l => l ≠ []) := by
          simp [List.filter_cons, hl]
        rw [h3, hstep, hf, List.map_cons, insertKeys_cons]

/-- C3 (amended): a document consisting only of person-declaration
lines (no tab-indented lines, no `@`-directives) parses into a model
with no edges whose person count equals the number of **distinct**
nodeIds derived from its non-blank lines; the count equals the
non-blank line count only when no two lines normalize to the same
nodeId, since the person dictionary collapses duplicates. -/
theorem person_declaration_lines_parse (contents : Str)
    (h : ∀ l ∈ splitAllChar '\n' contents, l ≠ [] →
      startsWithChar '\t' l = false ∧
      ¬(startsWithChar '@' l = true ∧ ':' ∈ l)) :
    ∃ m, parseModel contents = some m ∧ m.edges = [] ∧
      m.people.length =
        (((splitAllChar '\n' contents).filter (fun l => l ≠ [])).map
          (fun l => convertHumanNameToDotNodeName l)).dedup.length := by
  obtain ⟨m2, h1, h2, h3⟩ := parseLines_person_only (splitAllChar '\n' contents) Model.init h
  refine ⟨m2, h1, h2, ?_⟩
  have hlen : m2.people.length = (m2.people.map Prod.fst).length :=
    (List.length_map _ _).symm
  rw [hlen, h3]
  exact insertKeys_nil_length _

/-- C3 witness: the two-line document `Alice\nBob`. -/
theorem person_declaration_lines_parse_witness :
    (∀ l ∈ splitAllChar '\n' "Alice\nBob".toList, l ≠ [] →
      startsWithChar '\t' l = false ∧
      ¬(startsWithChar '@' l = true ∧ ':' ∈ l)) ∧
    (∃ m, parseModel "Alice\nBob".toList = some m ∧ m.edges = [] ∧
      m.people.length =
        (((splitAllChar '\n' "Alice\nBob".toList).filter (fun l => l ≠ [])).map
          (fun l => convertHumanNameToDotNodeName l)).dedup.length) :=
  ⟨by decide, person_declaration_lines_parse "Alice\nBob".toList (by decide)⟩
